import Mathlib

/-!
Verification of the wallet transaction construction and fee-replacement
pipeline of src/src/wallet/rpcwallet.cpp: the bumpfee RPC (fee replacement),
SendMoneyNew / sendmany (payment building) and SendWithOpreturn (payload
sends).  Wallet collaborators whose sources are not part of the repository
snapshot (coin ledger, fee estimator internals, signer, commit) are modelled
as oracle fields of an environment record, following the spec's description
of them as external collaborators.
-/

/-- Amounts in satoshis (CAmount in the source, an int64). -/
abbrev CAmount := Int

/-- Ceiling division on integers, used for fee-from-rate rounding. -/
def cdiv (a b : Int) : Int := -((-a) / b)

/-- Modelled from the spec: the fee-rate type (the CFeeRate implementation is
not under src/).  Spec 4.2 treats a rate as a per-kilobyte value. -/
structure CFeeRate where
  nSatoshisPerK : Int
deriving DecidableEq

/-- Modelled from the spec: fee from an explicit rate is ceil(rate*size/1000)
(spec 4.2, mode 1). -/
def CFeeRate.GetFee (r : CFeeRate) (bytes : Int) : CAmount :=
  cdiv (r.nSatoshisPerK * bytes) 1000

def CFeeRate.GetFeePerK (r : CFeeRate) : CAmount := r.GetFee 1000

/-- Modelled from the spec: a rate resolved from a paid fee over a size
(spec leaves the rounding open; integer floor division is used here; every
concrete input below divides exactly, so no claim depends on the choice). -/
def CFeeRate.ofFee (feePaid : CAmount) (bytes : Int) : CFeeRate :=
  if 0 < bytes then ⟨feePaid * 1000 / bytes⟩ else ⟨0⟩

/-- A transaction input: previous output reference plus sequence number. -/
structure TxIn where
  prevoutHash : Nat
  prevoutN : Nat
  nSequence : Nat
deriving DecidableEq

/-- A transaction output: value and (an identifier standing for) its
scriptPubKey. -/
structure TxOut where
  nValue : CAmount
  scriptPubKey : Nat
deriving DecidableEq

def txOutDefault : TxOut := ⟨0, 0⟩

structure Tx where
  vin : List TxIn
  vout : List TxOut
deriving DecidableEq

/-- Sum of the output values (CTransaction::GetValueOut). -/
def Tx.GetValueOut (tx : Tx) : CAmount := (tx.vout.map TxOut.nValue).sum

/-- BIP-125 opt-in signalling: some input sequence number below 0xfffffffe
(per the bumpfee help text in the source, rpcwallet.cpp:2775-2781). -/
def SignalsOptInRBF (tx : Tx) : Bool :=
  tx.vin.any fun i => decide (i.nSequence < 0xfffffffe)

/-- A wallet transaction record: the transaction, the replaced_by_txid entry
of its mapValue (if marked replaced), its depth in the main chain, and its
debit (GetDebit with ISMINE_SPENDABLE, an oracle value since the wallet
bookkeeping is not under src/). -/
structure WalletTx where
  tx : Tx
  replacedBy : Option Nat
  depth : Int
  debit : CAmount
deriving DecidableEq

/-- The options object of the bumpfee RPC. -/
structure BumpOptions where
  confTarget : Option Int
  totalFee : Option CAmount
  replaceable : Bool
deriving DecidableEq

/-- Warnings folded into the errors array of a successful bumpfee result. -/
inductive BumpWarning where
  | rejected
  | markFailed
deriving DecidableEq

/-- A successful bumpfee result: new txid, old fee, new fee, errors array. -/
structure BumpResult where
  txid : Nat
  origfee : CAmount
  fee : CAmount
  errors : List BumpWarning
deriving DecidableEq

/-- One constructor per throw site of the bumpfee RPC, in source order.
assertDeltaFailed models the process abort of assert(nDelta > 0) at
rpcwallet.cpp:2958. -/
inductive BumpError where
  | walletLocked
  | invalidTxid
  | walletDescendants
  | mempoolDescendants
  | txMined
  | notReplaceable
  | alreadyBumped (r : Nat)
  | foreignInputs
  | multipleChangeOutputs
  | noChangeOutput
  | conflictingOptions
  | invalidConfTarget
  | totalFeeBelowRequired
  | totalFeeTooLow
  | feeTooHigh
  | feeBelowMempoolMin
  | assertDeltaFailed
  | changeTooSmall
  | signFailed
deriving DecidableEq

/-- Errors of the claim's eligibility list (rpcwallet.cpp:2807-2850). -/
def BumpError.isEligibility : BumpError → Bool
  | .walletDescendants => true
  | .mempoolDescendants => true
  | .txMined => true
  | .notReplaceable => true
  | .alreadyBumped _ => true
  | .foreignInputs => true
  | .multipleChangeOutputs => true
  | .noChangeOutput => true
  | _ => false

/-- The wallet/node environment of one bumpfee call.  Functions whose code is
outside this file's source (wallet bookkeeping, mempool, fee estimation,
signing, policy constants) are oracle fields; everything the claims depend on
is transcribed from rpcwallet.cpp. -/
structure BumpEnv where
  walletLocked : Bool
  mapWallet : Nat → Option WalletTx
  hasWalletSpend : Nat → Bool
  mempoolDescendants : Nat → Bool
  isAllFromMe : Nat → Bool
  isChange : Nat → Bool
  dustThreshold : Nat → CAmount
  virtualSize : Tx → Int
  maxSignedSize : Tx → Int
  requiredFee : Int → CAmount
  minimumFeeTarget : Int → Int → CAmount
  minimumFeeWallet : Int → Int → CAmount
  nTxConfirmTarget : Int
  incrementalRelayFee : CFeeRate
  mempoolMinFeeRate : CFeeRate
  maxTxFee : CAmount
  signOk : Tx → Bool
  commitStateInvalid : Bool
  markReplacedOk : Bool
  newTxid : Tx → Nat

/-- WALLET_INCREMENTAL_RELAY_FEE (wallet.h, not under src/): the wallet's
conservative floor for the incremental relay fee, per rpcwallet.cpp:2899-2905. -/
def WALLET_INCREMENTAL_RELAY_FEE : Int := 5000

/-- rpcwallet.cpp:2902-2905: the larger of the wallet constant and the node's
incremental relay fee. -/
def walletIncrementalRelayFee (env : BumpEnv) : CFeeRate :=
  if WALLET_INCREMENTAL_RELAY_FEE < env.incrementalRelayFee.nSatoshisPerK
  then env.incrementalRelayFee else ⟨WALLET_INCREMENTAL_RELAY_FEE⟩

/-- The change-output scan of rpcwallet.cpp:2839-2850: walk the outputs,
fail on a second change output, fail at the end if none was found. -/
def findChange (isC : Nat → Bool) : List TxOut → Nat → Option Nat → Except BumpError Nat
  | [], _, none => .error .noChangeOutput
  | [], _, some p => .ok p
  | o :: rest, i, found =>
    if isC o.scriptPubKey then
      match found with
      | some _ => .error .multipleChangeOutputs
      | none => findChange isC rest (i + 1) (some i)
    else findChange isC rest (i + 1) found

/-- Number of change outputs of an output list. -/
def countChange (isC : Nat → Bool) (outs : List TxOut) : Nat :=
  outs.countP fun o => isC o.scriptPubKey

/-- Option parsing and validation, rpcwallet.cpp:2856-2892.  Returns
(specifiedConfirmTarget, newConfirmTarget, totalFee, replaceable). -/
def validateOptions (env : BumpEnv) (maxNewTxSize : Int) (o : BumpOptions) :
    Except BumpError (Bool × Int × CAmount × Bool) :=
  match o.confTarget, o.totalFee with
  | some _, some _ => .error .conflictingOptions
  | some t, none =>
    if t ≤ 0 then .error .invalidConfTarget
    else .ok (true, t, 0, o.replaceable)
  | none, some f =>
    if f < env.requiredFee maxNewTxSize then .error .totalFeeBelowRequired
    else .ok (false, env.nTxConfirmTarget, f, o.replaceable)
  | none, none => .ok (false, env.nTxConfirmTarget, 0, o.replaceable)

/-- The maxTxFee ceiling (rpcwallet.cpp:2939-2943) and mempool minimum fee
rate floor (rpcwallet.cpp:2950-2953), applied in all cases. -/
def checkCaps (env : BumpEnv) (fee : CAmount) (rate : CFeeRate) :
    Except BumpError (CAmount × CFeeRate) :=
  if env.maxTxFee < fee then .error .feeTooHigh
  else if rate.GetFeePerK < env.mempoolMinFeeRate.GetFeePerK then .error .feeBelowMempoolMin
  else .ok (fee, rate)

/-- New fee and fee rate, rpcwallet.cpp:2907-2953: either from the explicit
totalFee (validated against old fee plus incremental relay fee on the maximum
signed size), or from the fee estimator, raised to old rate + 1 satoshi +
wallet incremental relay rate when below it. -/
def computeNewFee (env : BumpEnv) (specified : Bool) (target : Int) (tot : CAmount)
    (nOldFeeRate : CFeeRate) (maxNewTxSize : Int) : Except BumpError (CAmount × CFeeRate) :=
  if 0 < tot then
    let minTotalFee := nOldFeeRate.GetFee maxNewTxSize + env.incrementalRelayFee.GetFee maxNewTxSize
    if tot < minTotalFee then .error .totalFeeTooLow
    else checkCaps env tot (CFeeRate.ofFee tot maxNewTxSize)
  else
    let nNewFee0 := if specified then env.minimumFeeTarget maxNewTxSize target
                    else env.minimumFeeWallet maxNewTxSize target
    let r0 := CFeeRate.ofFee nNewFee0 maxNewTxSize
    let bound := nOldFeeRate.GetFeePerK + 1 + (walletIncrementalRelayFee env).GetFeePerK
    if r0.GetFeePerK < bound then
      checkCaps env (CFeeRate.GetFee ⟨bound⟩ maxNewTxSize) ⟨bound⟩
    else checkCaps env nNewFee0 r0

/-- The rebuild step, rpcwallet.cpp:2955-2971 (after the delta assertion):
fail if the change output cannot pay delta, otherwise subtract delta from it
and drop it entirely (absorbing the remainder into the fee) when it falls to
or below its dust threshold.  Returns the rebuilt transaction and the
absorbed amount. -/
def rebuildTx (tx : Tx) (nOutput : Nat) (nDelta : CAmount) (dust : Nat → CAmount) :
    Except BumpError (Tx × CAmount) :=
  let out := tx.vout.getD nOutput txOutDefault
  if out.nValue < nDelta then .error .changeTooSmall
  else
    let newVal := out.nValue - nDelta
    let vout1 := tx.vout.set nOutput ⟨newVal, out.scriptPubKey⟩
    if newVal ≤ dust out.scriptPubKey then .ok ({ tx with vout := vout1.eraseIdx nOutput }, newVal)
    else .ok ({ tx with vout := vout1 }, 0)

/-- Sequence normalization when replaceable=false, rpcwallet.cpp:2974-2978. -/
def normalizeSequences (tx : Tx) : Tx :=
  { tx with vin := tx.vin.map fun i =>
      if i.nSequence < 0xfffffffe then { i with nSequence := 0xfffffffe } else i }

/-- Fee computation, rebuild and signing (rpcwallet.cpp:2852-2994), entered
once eligibility has passed.  Returns the original record, the signed
replacement, the old fee and the final new fee. -/
def bumpfeeFeePart (env : BumpEnv) (o : BumpOptions) (wtx : WalletTx) (nOutput : Nat) :
    Except BumpError (WalletTx × Tx × CAmount × CAmount) :=
  let txSize := env.virtualSize wtx.tx
  let maxNewTxSize := env.maxSignedSize wtx.tx
  match validateOptions env maxNewTxSize o with
  | .error e => .error e
  | .ok (specified, target, tot, repl) =>
    let nOldFee := wtx.debit - wtx.tx.GetValueOut
    let nOldFeeRate := CFeeRate.ofFee nOldFee txSize
    match computeNewFee env specified target tot nOldFeeRate maxNewTxSize with
    | .error e => .error e
    | .ok (nNewFee, _) =>
      let nDelta := nNewFee - nOldFee
      if nDelta ≤ 0 then .error .assertDeltaFailed
      else
        match rebuildTx wtx.tx nOutput nDelta env.dustThreshold with
        | .error e => .error e
        | .ok (tx1, absorbed) =>
          let tx2 := if repl then tx1 else normalizeSequences tx1
          if env.signOk tx2 then .ok (wtx, tx2, nOldFee, nNewFee + absorbed)
          else .error .signFailed

/-- Everything before commit, rpcwallet.cpp:2800-2994: unlock check, lookup,
the eligibility chain in source order, then fees, rebuild and signing. -/
def bumpfeePrepare (env : BumpEnv) (h : Nat) (o : BumpOptions) :
    Except BumpError (WalletTx × Tx × CAmount × CAmount) :=
  if env.walletLocked then .error .walletLocked
  else
    match env.mapWallet h with
    | none => .error .invalidTxid
    | some wtx =>
      if env.hasWalletSpend h then .error .walletDescendants
      else if env.mempoolDescendants h then .error .mempoolDescendants
      else if wtx.depth ≠ 0 then .error .txMined
      else if !SignalsOptInRBF wtx.tx then .error .notReplaceable
      else
        match wtx.replacedBy with
        | some r => .error (.alreadyBumped r)
        | none =>
          if !env.isAllFromMe h then .error .foreignInputs
          else
            match findChange env.isChange wtx.tx.vout 0 none with
            | .error e => .error e
            | .ok nOutput => bumpfeeFeePart env o wtx nOutput

/-- Commit stage, rpcwallet.cpp:2996-3033.  CommitTransaction never returns
false (source NOTE at rpcwallet.cpp:3007), so there is no failure branch: a
mempool rejection (state.IsInvalid) and a MarkReplaced failure are appended
to the errors array of the successful result.  The wallet map gains the
bumped transaction and, when MarkReplaced succeeded, the original's
replaced_by_txid link. -/
def bumpfeeCommit (env : BumpEnv) (h : Nat) (w : WalletTx) (tx2 : Tx)
    (oldFee newFee : CAmount) : Except BumpError BumpResult × BumpEnv :=
  let newId := env.newTxid tx2
  let warnings := (if env.commitStateInvalid then [BumpWarning.rejected] else [])
      ++ (if env.markReplacedOk then [] else [BumpWarning.markFailed])
  let wtxBumped : WalletTx := ⟨tx2, none, 0, w.debit⟩
  let mw := fun h2 =>
    if h2 = newId then some wtxBumped
    else if h2 = h then
      some { w with replacedBy := if env.markReplacedOk then some newId else w.replacedBy }
    else env.mapWallet h2
  (.ok ⟨newId, oldFee, newFee, warnings⟩, { env with mapWallet := mw })

/-- The bumpfee RPC as a state transformer: every throw leaves the wallet
as it was (all throws in the source occur before CommitTransaction, and only
local copies of the transaction are mutated); success commits. -/
def bumpfee (env : BumpEnv) (h : Nat) (o : BumpOptions) :
    Except BumpError BumpResult × BumpEnv :=
  match bumpfeePrepare env h o with
  | .error e => (.error e, env)
  | .ok (w, tx2, oldFee, newFee) => bumpfeeCommit env h w tx2 oldFee newFee

def exceptIsOk {α β : Type} : Except α β → Bool
  | .ok _ => true
  | .error _ => false

/-- A recipient of CreateTransaction: scriptPubKey, amount, subtract-fee flag
(addresses and scripts are identified, GetScriptForDestination below). -/
structure Recipient where
  scriptPubKey : Nat
  nAmount : CAmount
  fSubtractFeeFromAmount : Bool
deriving DecidableEq

def GetScriptForDestination (d : Nat) : Nat := d

/-- One constructor per throw site of the sending paths. -/
inductive SendError where
  | invalidAmount
  | invalidAddress (a : Nat)
  | duplicatedAddress (a : Nat)
  | insufficientFunds
  | p2pDisabled
  | walletLocked
  | opReturnFailed
  | createFailed
  | commitFailed
deriving DecidableEq

/-- Collaborator calls observed during a sending path, in call order:
construction of the CReserveKey, the CreateTransaction call (with its
recipient vector), the CommitTransaction call. -/
inductive Event where
  | reserveKey
  | createTx (v : List Recipient)
  | commitTx
deriving DecidableEq

/-- Environment of the sending paths.  The ledger, key pool, builder and
commit collaborators (spec 6) are oracle fields; committed transactions are
accumulated so that state changes are observable. -/
structure SendEnv where
  walletLocked : Bool
  broadcast : Bool
  connman : Bool
  isValidAddress : Nat → Bool
  addressBalance : Nat → CAmount
  selectAddress : CAmount → Int → Option (Nat × CAmount)
  createOk : List Recipient → Bool
  commitOk : Bool
  createOpReturn : Nat → List Nat → List Nat
  nextTxid : Nat
  committed : List Nat
deriving Inhabited

/-- Shared tail of the senders: CReserveKey construction, CreateTransaction,
CommitTransaction, each leaving its event; only a successful commit changes
the wallet (the new txid is recorded). -/
def createAndCommit (env : SendEnv) (vecSend : List Recipient) :
    Except SendError Nat × SendEnv × List Event :=
  if env.createOk vecSend then
    if env.commitOk then
      (.ok env.nextTxid, { env with committed := env.nextTxid :: env.committed },
        [.reserveKey, .createTx vecSend, .commitTx])
    else (.error .commitFailed, env, [.reserveKey, .createTx vecSend, .commitTx])
  else (.error .createFailed, env, [.reserveKey, .createTx vecSend])

/-- SendMoneyNew, rpcwallet.cpp:358-401: amount check, source-address
balance check (explicit address or SelectAddress), peer check, then build
and commit of the single-recipient transaction. -/
def SendMoneyNew (env : SendEnv) (address : Nat) (nValue : CAmount)
    (fSubtractFeeFromAmount : Bool) (pfromAddress : Option Nat) :
    Except SendError Nat × SendEnv × List Event :=
  if nValue ≤ 0 then (.error .invalidAmount, env, [])
  else
    let resolved : Option (Nat × CAmount) :=
      match pfromAddress with
      | some a => if env.addressBalance a < nValue then none else some (a, env.addressBalance a)
      | none => env.selectAddress nValue 1
    match resolved with
    | none => (.error .insufficientFunds, env, [])
    | some _ =>
      if env.broadcast && !env.connman then (.error .p2pDisabled, env, [])
      else createAndCommit env [⟨GetScriptForDestination address, nValue, fSubtractFeeFromAmount⟩]

/-- The recipient loop of sendmany, rpcwallet.cpp:981-1006: per entry the
address validity check, the duplicate check against the already-seen set,
the positive-amount check; accumulates the recipient vector and the total. -/
def processRecipients (isValid : Nat → Bool) (subtract : List Nat) :
    List (Nat × CAmount) → List Nat → List Recipient → CAmount →
    Except SendError (List Recipient × CAmount)
  | [], _, acc, total => .ok (acc, total)
  | (a, amt) :: rest, seen, acc, total =>
    if !isValid a then .error (.invalidAddress a)
    else if a ∈ seen then .error (.duplicatedAddress a)
    else if amt ≤ 0 then .error .invalidAmount
    else processRecipients isValid subtract rest (a :: seen)
        (acc ++ [⟨GetScriptForDestination a, amt, decide (a ∈ subtract)⟩]) (total + amt)

/-- The body of sendmany after address validation, rpcwallet.cpp:976-1040:
the recipient loop, unlock check, source balance check (explicit
from-address or SelectAddress with the minimum depth), then build and
commit. -/
def sendmanyBody (env : SendEnv) (entries : List (Nat × CAmount)) (pfrom : Option Nat)
    (minDepth : Int) (subtract : List Nat) :
    Except SendError Nat × SendEnv × List Event :=
  match processRecipients env.isValidAddress subtract entries [] [] 0 with
  | .error e => (.error e, env, [])
  | .ok (vecSend, totalAmount) =>
    if env.walletLocked then (.error .walletLocked, env, [])
    else
      let srcOk : Bool :=
        match pfrom with
        | some a => !decide (env.addressBalance a < totalAmount)
        | none => (env.selectAddress totalAmount minDepth).isSome
      if srcOk then createAndCommit env vecSend
      else (.error .insufficientFunds, env, [])

/-- sendmany, rpcwallet.cpp:943-1040: peer check, then from/change address
validity in source order, then the body above. -/
def sendmany (env : SendEnv) (entries : List (Nat × CAmount)) (pfrom : Option Nat)
    (pchange : Option Nat) (minDepth : Int) (subtract : List Nat) :
    Except SendError Nat × SendEnv × List Event :=
  if env.broadcast && !env.connman then (.error .p2pDisabled, env, [])
  else
    let fromOk : Except SendError Unit :=
      match pfrom with
      | some a => if !env.isValidAddress a then .error (.invalidAddress a) else .ok ()
      | none => .ok ()
    match fromOk with
    | .error e => (.error e, env, [])
    | .ok _ =>
      let changeOk : Except SendError Unit :=
        match pchange with
        | some c => if !env.isValidAddress c then .error (.invalidAddress c) else .ok ()
        | none => .ok ()
      match changeOk with
      | .error e => (.error e, env, [])
      | .ok _ => sendmanyBody env entries pfrom minDepth subtract

/-- SendWithOpreturn, rpcwallet.cpp:3046-3089: balance must cover the fixed
fee, peer check, payload encoding, then build and commit of a transaction
whose single spendable recipient is the sending address with its entire
balance and subtract-fee false. -/
def SendWithOpreturn (env : SendEnv) (address : Nat) (fee : CAmount)
    (nAppID : Nat) (vctAppData : List Nat) :
    Except SendError Nat × SendEnv × List Event :=
  let curBalance := env.addressBalance address
  if curBalance < fee then (.error .insufficientFunds, env, [])
  else if env.broadcast && !env.connman then (.error .p2pDisabled, env, [])
  else
    let opdata := env.createOpReturn nAppID vctAppData
    if opdata = [] then (.error .opReturnFailed, env, [])
    else createAndCommit env [⟨GetScriptForDestination address, curBalance, false⟩]

/-- A wallet transaction eligible for bumping: one RBF-signalling input,
a change output (script 0) of 50000 and a payment output (script 1) of
40000; debit 100000, hence an old fee of 10000. -/
def wtxOK : WalletTx :=
  ⟨⟨[⟨0, 0, 0⟩], [⟨50000, 0⟩, ⟨40000, 1⟩]⟩, none, 0, 100000⟩

/-- A benign concrete environment: txid 1 holds wtxOK, sizes are exactly
1000 vbytes, dust threshold 600, incremental relay fee 1000 per kB,
maxTxFee 100000. -/
def envOK : BumpEnv where
  walletLocked := false
  mapWallet := fun h => if h = 1 then some wtxOK else none
  hasWalletSpend := fun _ => false
  mempoolDescendants := fun _ => false
  isAllFromMe := fun _ => true
  isChange := fun s => s = 0
  dustThreshold := fun _ => 600
  virtualSize := fun _ => 1000
  maxSignedSize := fun _ => 1000
  requiredFee := fun _ => 1000
  minimumFeeTarget := fun _ _ => 0
  minimumFeeWallet := fun _ _ => 0
  nTxConfirmTarget := 6
  incrementalRelayFee := ⟨1000⟩
  mempoolMinFeeRate := ⟨0⟩
  maxTxFee := 100000
  signOk := fun _ => true
  commitStateInvalid := false
  markReplacedOk := true
  newTxid := fun _ => 2

def optsOK : BumpOptions := ⟨none, some 15000, true⟩

/-- Original with a 10500 change output: bumping by an explicit totalFee of
20000 (= maxTxFee) leaves 500 of change, below dust, which is absorbed. -/
def wtxC1 : WalletTx :=
  ⟨⟨[⟨0, 0, 0⟩], [⟨10500, 0⟩, ⟨79500, 1⟩]⟩, none, 0, 100000⟩

def envC1 : BumpEnv :=
  { envOK with maxTxFee := 20000, mapWallet := fun h => if h = 1 then some wtxC1 else none }

def optsC1 : BumpOptions := ⟨none, some 20000, true⟩

/-- A confirmed transaction (depth 1) that also has a wallet descendant. -/
def envC2 : BumpEnv :=
  { envOK with
    hasWalletSpend := fun _ => true,
    mapWallet := fun h => if h = 1 then some { wtxOK with depth := 1 } else none }

/-- A transaction already marked replaced (by txid 9) that also has a wallet
descendant. -/
def envC7 : BumpEnv :=
  { envOK with
    hasWalletSpend := fun _ => true,
    mapWallet := fun h => if h = 1 then some { wtxOK with replacedBy := some 9 } else none }

/-- A transaction already marked replaced (by txid 9), all other eligibility
checks passing. -/
def envC7b : BumpEnv :=
  { envOK with
    mapWallet := fun h => if h = 1 then some { wtxOK with replacedBy := some 9 } else none }

/-- Commit-stage flags raised: the mempool rejected the replacement and
MarkReplaced failed. -/
def envC8 : BumpEnv :=
  { envOK with commitStateInvalid := true, markReplacedOk := false }

/-- Node configured with a zero incremental relay fee (-incrementalrelayfee=0):
an explicit totalFee equal to the old fee passes every fee check. -/
def envC9 : BumpEnv := { envOK with incrementalRelayFee := ⟨0⟩ }

def optsC9 : BumpOptions := ⟨none, some 10000, true⟩

def optsNone : BumpOptions := ⟨none, none, true⟩

/-- A benign sending environment: address 7 holds 1000; everything else is
empty; peers connected; all collaborators succeed. -/
def sendEnvOK : SendEnv where
  walletLocked := false
  broadcast := true
  connman := true
  isValidAddress := fun _ => true
  addressBalance := fun a => if a = 7 then 1000 else 0
  selectAddress := fun t _ => if t ≤ 1000 then some (7, 1000) else none
  createOk := fun _ => true
  commitOk := true
  createOpReturn := fun _ d => 0 :: d
  nextTxid := 42
  committed := []

lemma getD_set_self {α : Type} (l : List α) (i : Nat) (b d : α) (h : i < l.length) :
    (l.set i b).getD i d = b := by
  induction l generalizing i with
  | nil => simp at h
  | cons a t ih =>
    cases i with
    | zero => simp
    | succ j => simpa using ih j (by simpa using h)

lemma getD_set_ne {α : Type} (l : List α) (i j : Nat) (b d : α) (hne : j ≠ i) :
    (l.set i b).getD j d = l.getD j d := by
  induction l generalizing i j with
  | nil => simp
  | cons a t ih =>
    cases i with
    | zero =>
      cases j with
      | zero => exact absurd rfl hne
      | succ j2 => simp
    | succ i2 =>
      cases j with
      | zero => simp
      | succ j2 => simpa using ih i2 j2 (fun hc => hne (by simp [hc]))

lemma mem_getD {α : Type} {x : α} {l : List α} (d : α) (hx : x ∈ l) :
    ∃ j, j < l.length ∧ l.getD j d = x := by
  induction l with
  | nil => simp at hx
  | cons a t ih =>
    rcases List.mem_cons.mp hx with h1 | h2
    · exact ⟨0, by simp, by simp [h1]⟩
    · obtain ⟨j, hj, hje⟩ := ih h2
      exact ⟨j + 1, by simpa using hj, by simpa using hje⟩

lemma getD_mem {α : Type} {l : List α} {j : Nat} (d : α) (hj : j < l.length) :
    l.getD j d ∈ l := by
  induction l generalizing j with
  | nil => simp at hj
  | cons a t ih =>
    cases j with
    | zero => simp
    | succ j2 => simpa using List.mem_cons_of_mem a (ih (by simpa using hj))

lemma mem_eraseIdx_getD {α : Type} {x : α} {l : List α} {i : Nat} (d : α)
    (hx : x ∈ l.eraseIdx i) :
    ∃ j, j < l.length ∧ j ≠ i ∧ l.getD j d = x := by
  induction l generalizing i with
  | nil => simp [List.eraseIdx] at hx
  | cons a t ih =>
    cases i with
    | zero =>
      obtain ⟨j, hj, hje⟩ := mem_getD d (by simpa [List.eraseIdx] using hx)
      exact ⟨j + 1, by simpa using hj, by simp, by simpa using hje⟩
    | succ i2 =>
      rcases List.mem_cons.mp (by simpa [List.eraseIdx] using hx) with h1 | h2
      · exact ⟨0, by simp, by simp, by simp [h1]⟩
      · obtain ⟨j, hj, hne, hje⟩ := ih h2
        exact ⟨j + 1, by simpa using hj, by simpa using hne, by simpa using hje⟩

lemma cdiv_mul_cancel (K : Int) : cdiv (K * 1000) 1000 = K := by
  unfold cdiv; omega

lemma cdiv_le_of_le_mul {x a : Int} (hx : x ≤ a * 1000) : cdiv x 1000 ≤ a := by
  unfold cdiv; omega

lemma GetFeePerK_mk (K : Int) : CFeeRate.GetFeePerK ⟨K⟩ = K := by
  unfold CFeeRate.GetFeePerK CFeeRate.GetFee
  simpa using cdiv_mul_cancel K

lemma findChange_someP {isC : Nat → Bool} :
    ∀ (outs : List TxOut) (i p j : Nat), findChange isC outs i (some p) = .ok j →
      j = p ∧ ∀ m, m < outs.length → isC (outs.getD m txOutDefault).scriptPubKey = false := by
  intro outs
  induction outs with
  | nil =>
    intro i p j hfc
    have hpj : p = j := by simpa [findChange] using hfc
    refine ⟨hpj.symm, ?_⟩
    intro m hm; simp at hm
  | cons o t ih =>
    intro i p j hfc
    unfold findChange at hfc
    by_cases hc : isC o.scriptPubKey
    · simp [hc] at hfc
    · simp only [hc, if_false, Bool.false_eq_true] at hfc
      obtain ⟨hj, hall⟩ := ih (i + 1) p j hfc
      refine ⟨hj, ?_⟩
      intro m hm
      cases m with
      | zero => simpa using hc
      | succ m2 => simpa using hall m2 (by simpa using hm)

lemma findChange_noneP {isC : Nat → Bool} :
    ∀ (outs : List TxOut) (i j : Nat), findChange isC outs i none = .ok j →
      ∃ k, k < outs.length ∧ j = i + k ∧
        isC (outs.getD k txOutDefault).scriptPubKey = true ∧
        ∀ m, m < outs.length → m ≠ k → isC (outs.getD m txOutDefault).scriptPubKey = false := by
  intro outs
  induction outs with
  | nil => intro i j hfc; simp [findChange] at hfc
  | cons o t ih =>
    intro i j hfc
    unfold findChange at hfc
    by_cases hc : isC o.scriptPubKey
    · simp only [hc, if_true] at hfc
      obtain ⟨hj, hall⟩ := findChange_someP t (i + 1) i j hfc
      refine ⟨0, by simp, by simpa using hj, by simpa using hc, ?_⟩
      intro m hm hne
      cases m with
      | zero => exact absurd rfl hne
      | succ m2 => simpa using hall m2 (by simpa using hm)
    · simp only [hc, if_false, Bool.false_eq_true] at hfc
      obtain ⟨k, hk, hj, hkc, hall⟩ := ih (i + 1) j hfc
      refine ⟨k + 1, by simpa using hk, by omega, by simpa using hkc, ?_⟩
      intro m hm hne
      cases m with
      | zero => simpa using hc
      | succ m2 => simpa using hall m2 (by simpa using hm) (fun hc2 => hne (by simp [hc2]))

lemma countChange_cons (isC : Nat → Bool) (o : TxOut) (t : List TxOut) :
    countChange isC (o :: t) = countChange isC t + if isC o.scriptPubKey then 1 else 0 := by
  simp [countChange, List.countP_cons]

lemma findChange_some_zero {isC : Nat → Bool} :
    ∀ (outs : List TxOut) (i p : Nat), countChange isC outs = 0 →
      findChange isC outs i (some p) = .ok p := by
  intro outs
  induction outs with
  | nil => intro i p _; rfl
  | cons o t ih =>
    intro i p hz
    rw [countChange_cons] at hz
    by_cases hc : isC o.scriptPubKey
    · simp [hc] at hz
    · simp only [findChange, hc, if_false, Bool.false_eq_true]
      exact ih (i + 1) p (by omega)

lemma findChange_some_pos {isC : Nat → Bool} :
    ∀ (outs : List TxOut) (i p : Nat), 0 < countChange isC outs →
      findChange isC outs i (some p) = .error .multipleChangeOutputs := by
  intro outs
  induction outs with
  | nil => intro i p hz; simp [countChange] at hz
  | cons o t ih =>
    intro i p hz
    rw [countChange_cons] at hz
    by_cases hc : isC o.scriptPubKey
    · simp [findChange, hc]
    · simp only [findChange, hc, if_false, Bool.false_eq_true]
      exact ih (i + 1) p (by simp [hc] at hz; omega)

lemma findChange_none_zero {isC : Nat → Bool} :
    ∀ (outs : List TxOut) (i : Nat), countChange isC outs = 0 →
      findChange isC outs i none = .error .noChangeOutput := by
  intro outs
  induction outs with
  | nil => intro i _; rfl
  | cons o t ih =>
    intro i hz
    rw [countChange_cons] at hz
    by_cases hc : isC o.scriptPubKey
    · simp [hc] at hz
    · simp only [findChange, hc, if_false, Bool.false_eq_true]
      exact ih (i + 1) (by omega)

lemma findChange_none_one {isC : Nat → Bool} :
    ∀ (outs : List TxOut) (i : Nat), countChange isC outs = 1 →
      ∃ j, findChange isC outs i none = .ok j := by
  intro outs
  induction outs with
  | nil => intro i h; simp [countChange] at h
  | cons o t ih =>
    intro i h
    rw [countChange_cons] at h
    by_cases hc : isC o.scriptPubKey
    · refine ⟨i, ?_⟩
      simp only [findChange, hc, if_true]
      exact findChange_some_zero t (i + 1) i (by simp [hc] at h; omega)
    · simp only [findChange, hc, if_false, Bool.false_eq_true]
      exact ih (i + 1) (by simp [hc] at h; omega)

lemma findChange_none_two {isC : Nat → Bool} :
    ∀ (outs : List TxOut) (i : Nat), 2 ≤ countChange isC outs →
      findChange isC outs i none = .error .multipleChangeOutputs := by
  intro outs
  induction outs with
  | nil => intro i hz; simp [countChange] at hz
  | cons o t ih =>
    intro i hz
    rw [countChange_cons] at hz
    by_cases hc : isC o.scriptPubKey
    · simp only [findChange, hc, if_true]
      exact findChange_some_pos t (i + 1) i (by simp [hc] at hz; omega)
    · simp only [findChange, hc, if_false, Bool.false_eq_true]
      exact ih (i + 1) (by simp [hc] at hz; omega)


lemma checkCaps_ok_elim {env : BumpEnv} {fee : CAmount} {rate : CFeeRate}
    {fee2 : CAmount} {rate2 : CFeeRate}
    (hc : checkCaps env fee rate = .ok (fee2, rate2)) :
    fee2 = fee ∧ rate2 = rate ∧ fee ≤ env.maxTxFee ∧
      env.mempoolMinFeeRate.GetFeePerK ≤ rate.GetFeePerK := by
  unfold checkCaps at hc
  split at hc
  case isTrue hcap => exact absurd hc (by simp)
  case isFalse hcap =>
    split at hc
    case isTrue hmp => exact absurd hc (by simp)
    case isFalse hmp =>
      simp only [Except.ok.injEq, Prod.mk.injEq] at hc
      obtain ⟨h1, h2⟩ := hc
      exact ⟨h1.symm, h2.symm, le_of_not_lt hcap, le_of_not_lt hmp⟩

lemma validateOptions_ok_elim {env : BumpEnv} {m : Int} {o : BumpOptions}
    {s : Bool} {t : Int} {tot : CAmount} {repl : Bool}
    (hv : validateOptions env m o = .ok (s, t, tot, repl)) :
    tot = o.totalFee.getD 0 ∧ repl = o.replaceable := by
  unfold validateOptions at hv
  rcases hct : o.confTarget with _ | ct <;> rcases htf : o.totalFee with _ | tf <;>
      rw [hct, htf] at hv <;> simp only [] at hv
  · simp only [Except.ok.injEq, Prod.mk.injEq] at hv
    obtain ⟨_, _, h3, h4⟩ := hv
    exact ⟨by simp [h3.symm], h4.symm⟩
  · split at hv
    · exact absurd hv (by simp)
    · simp only [Except.ok.injEq, Prod.mk.injEq] at hv
      obtain ⟨_, _, h3, h4⟩ := hv
      exact ⟨by simp [h3.symm], h4.symm⟩
  · split at hv
    · exact absurd hv (by simp)
    · simp only [Except.ok.injEq, Prod.mk.injEq] at hv
      obtain ⟨_, _, h3, h4⟩ := hv
      exact ⟨by simp [h3.symm], h4.symm⟩
  · exact absurd hv (by simp)

lemma computeNewFee_ok_bounds {env : BumpEnv} {specified : Bool} {target : Int}
    {tot : CAmount} {oldRate : CFeeRate} {maxSz : Int} {fee : CAmount} {rate : CFeeRate}
    (hc : computeNewFee env specified target tot oldRate maxSz = .ok (fee, rate)) :
    fee ≤ env.maxTxFee ∧
    (0 < tot → oldRate.GetFee maxSz + env.incrementalRelayFee.GetFee maxSz ≤ fee) ∧
    (¬0 < tot → 0 < maxSz →
      CFeeRate.GetFee ⟨oldRate.GetFeePerK + 1 + (walletIncrementalRelayFee env).GetFeePerK⟩ maxSz ≤ fee) := by
  unfold computeNewFee at hc
  split at hc
  case isTrue hpos =>
    dsimp only [] at hc
    split at hc
    case isTrue hmin => exact absurd hc (by simp)
    case isFalse hmin =>
      obtain ⟨h1, _, hcap, _⟩ := checkCaps_ok_elim hc
      subst h1
      exact ⟨hcap, fun _ => le_of_not_lt hmin, fun hn _ => absurd hpos hn⟩
  case isFalse hpos =>
    dsimp only [] at hc
    generalize (if specified = true then env.minimumFeeTarget maxSz target
      else env.minimumFeeWallet maxSz target) = F at hc
    split at hc
    case isTrue hraise =>
      obtain ⟨h1, _, hcap, _⟩ := checkCaps_ok_elim hc
      subst h1
      exact ⟨hcap, fun hp => absurd hp hpos, fun _ _ => le_refl _⟩
    case isFalse hraise =>
      obtain ⟨h1, _, hcap, _⟩ := checkCaps_ok_elim hc
      subst h1
      refine ⟨hcap, fun hp => absurd hp hpos, fun _ hsz => ?_⟩
      rw [not_lt] at hraise
      have hper : (CFeeRate.ofFee fee maxSz).GetFeePerK = fee * 1000 / maxSz := by
        unfold CFeeRate.ofFee
        rw [if_pos hsz]
        exact GetFeePerK_mk _
      rw [hper] at hraise
      have hml : (oldRate.GetFeePerK + 1 + (walletIncrementalRelayFee env).GetFeePerK) * maxSz
          ≤ fee * 1000 := (Int.le_ediv_iff_mul_le hsz).mp hraise
      exact cdiv_le_of_le_mul hml

lemma rebuildTx_ok_elim {tx : Tx} {i : Nat} {delta : CAmount} {dust : Nat → CAmount}
    {tx1 : Tx} {absorbed : CAmount}
    (hr : rebuildTx tx i delta dust = .ok (tx1, absorbed)) :
    ¬(tx.vout.getD i txOutDefault).nValue < delta ∧ tx1.vin = tx.vin ∧ 0 ≤ absorbed ∧
    ((tx.vout.getD i txOutDefault).nValue - delta ≤ dust (tx.vout.getD i txOutDefault).scriptPubKey ∧
        tx1.vout = (tx.vout.set i ⟨(tx.vout.getD i txOutDefault).nValue - delta,
          (tx.vout.getD i txOutDefault).scriptPubKey⟩).eraseIdx i ∧
        absorbed = (tx.vout.getD i txOutDefault).nValue - delta ∨
      dust (tx.vout.getD i txOutDefault).scriptPubKey < (tx.vout.getD i txOutDefault).nValue - delta ∧
        tx1.vout = tx.vout.set i ⟨(tx.vout.getD i txOutDefault).nValue - delta,
          (tx.vout.getD i txOutDefault).scriptPubKey⟩ ∧
        absorbed = 0) := by
  unfold rebuildTx at hr
  dsimp only [] at hr
  split at hr
  case isTrue hlow => exact absurd hr (by simp)
  case isFalse hlow =>
    split at hr
    case isTrue hdust =>
      simp only [Except.ok.injEq, Prod.mk.injEq] at hr
      obtain ⟨h1, h2⟩ := hr
      refine ⟨hlow, by rw [← h1], ?_, Or.inl ⟨hdust, by rw [← h1], h2.symm⟩⟩
      rw [← h2]
      exact sub_nonneg.mpr (le_of_not_lt hlow)
    case isFalse hdust =>
      simp only [Except.ok.injEq, Prod.mk.injEq] at hr
      obtain ⟨h1, h2⟩ := hr
      exact ⟨hlow, by rw [← h1], h2 ▸ le_refl 0,
        Or.inr ⟨lt_of_not_le hdust, by rw [← h1], h2.symm⟩⟩

lemma feePart_ok_elim {env : BumpEnv} {o : BumpOptions} {wtx : WalletTx} {nOutput : Nat}
    {w : WalletTx} {tx2 : Tx} {oldF newF : CAmount}
    (hp : bumpfeeFeePart env o wtx nOutput = .ok (w, tx2, oldF, newF)) :
    ∃ specified target tot repl nNewFee rate tx1 absorbed,
      validateOptions env (env.maxSignedSize wtx.tx) o = .ok (specified, target, tot, repl) ∧
      computeNewFee env specified target tot
        (CFeeRate.ofFee (wtx.debit - wtx.tx.GetValueOut) (env.virtualSize wtx.tx))
        (env.maxSignedSize wtx.tx) = .ok (nNewFee, rate) ∧
      0 < nNewFee - (wtx.debit - wtx.tx.GetValueOut) ∧
      rebuildTx wtx.tx nOutput (nNewFee - (wtx.debit - wtx.tx.GetValueOut))
        env.dustThreshold = .ok (tx1, absorbed) ∧
      tx2 = (if repl then tx1 else normalizeSequences tx1) ∧
      env.signOk tx2 = true ∧ w = wtx ∧ oldF = wtx.debit - wtx.tx.GetValueOut ∧
      newF = nNewFee + absorbed := by
  unfold bumpfeeFeePart at hp
  dsimp only [] at hp
  rcases hv : validateOptions env (env.maxSignedSize wtx.tx) o with e | ⟨specified, target, tot, repl⟩
  · rw [hv] at hp; exact absurd hp (by simp)
  · rw [hv] at hp
    dsimp only [] at hp
    rcases hcf : computeNewFee env specified target tot
        (CFeeRate.ofFee (wtx.debit - wtx.tx.GetValueOut) (env.virtualSize wtx.tx))
        (env.maxSignedSize wtx.tx) with e | ⟨nNewFee, rate⟩
    · rw [hcf] at hp; exact absurd hp (by simp)
    · rw [hcf] at hp
      dsimp only [] at hp
      split at hp
      case isTrue hd => exact absurd hp (by simp)
      case isFalse hd =>
        rcases hrb : rebuildTx wtx.tx nOutput (nNewFee - (wtx.debit - wtx.tx.GetValueOut))
            env.dustThreshold with e | ⟨tx1, absorbed⟩
        · rw [hrb] at hp; exact absurd hp (by simp)
        · rw [hrb] at hp
          dsimp only [] at hp
          generalize htx : (if repl = true then tx1 else normalizeSequences tx1) = tx3 at hp
          split at hp
          case isFalse hs => exact absurd hp (by simp)
          case isTrue hs =>
            simp only [Except.ok.injEq, Prod.mk.injEq] at hp
            obtain ⟨hw, ht, ho, hn⟩ := hp
            refine ⟨specified, target, tot, repl, nNewFee, rate, tx1, absorbed, ?_, ?_,
              lt_of_not_le hd, ?_, by rw [← ht, ← htx], by rw [← ht]; exact hs,
              hw.symm, ho.symm, hn.symm⟩
            · exact rfl
            · first
              | exact rfl
              | exact hcf
            · first
              | exact rfl
              | exact hrb

lemma prepare_ok_elim {env : BumpEnv} {h : Nat} {o : BumpOptions}
    {x : WalletTx × Tx × CAmount × CAmount}
    (hp : bumpfeePrepare env h o = .ok x) :
    ∃ wtx, env.walletLocked = false ∧ env.mapWallet h = some wtx ∧
      env.hasWalletSpend h = false ∧ env.mempoolDescendants h = false ∧
      wtx.depth = 0 ∧ SignalsOptInRBF wtx.tx = true ∧ wtx.replacedBy = none ∧
      env.isAllFromMe h = true ∧
      ∃ nOutput, findChange env.isChange wtx.tx.vout 0 none = .ok nOutput ∧
        bumpfeeFeePart env o wtx nOutput = .ok x := by
  unfold bumpfeePrepare at hp
  split at hp
  case isTrue hl => exact absurd hp (by simp)
  case isFalse hl =>
    rcases hm : env.mapWallet h with _ | wtx
    · rw [hm] at hp; exact absurd hp (by simp)
    · rw [hm] at hp
      dsimp only [] at hp
      split at hp
      case isTrue hs => exact absurd hp (by simp)
      case isFalse hs =>
        split at hp
        case isTrue hmp => exact absurd hp (by simp)
        case isFalse hmp =>
          split at hp
          case isTrue hdp => exact absurd hp (by simp)
          case isFalse hdp =>
            split at hp
            case isTrue hrbf => exact absurd hp (by simp)
            case isFalse hrbf =>
              rcases hrp : wtx.replacedBy with _ | r
              · rw [hrp] at hp
                dsimp only [] at hp
                split at hp
                case isTrue hfm => exact absurd hp (by simp)
                case isFalse hfm =>
                  rcases hfc : findChange env.isChange wtx.tx.vout 0 none with e | nOutput
                  · rw [hfc] at hp; dsimp only [] at hp; exact absurd hp (by simp)
                  · rw [hfc] at hp
                    dsimp only [] at hp
                    refine ⟨wtx, by simpa using hl, ?_, by simpa using hs, by simpa using hmp,
                      not_not.mp hdp, by simpa using hrbf, ?_, by simpa using hfm,
                      nOutput, ?_, hp⟩
                    · exact rfl
                    · first
                      | exact rfl
                      | exact hrp
                    · first
                      | exact rfl
                      | exact hfc
              · rw [hrp] at hp; dsimp only [] at hp; exact absurd hp (by simp)

def txB : Tx := ⟨[⟨0, 0, 0⟩], [⟨45000, 0⟩, ⟨40000, 1⟩]⟩

/-- C9: the claim says assert(nDelta > 0) can never fire under the fee checks
that precede it.  Evaluating the transcription on a node configured with a
zero incremental relay fee and an explicit totalFee equal to the old fee
(10000 satoshis on a 1000-vbyte transaction): every preceding check passes,
nDelta = 0, and the assertion aborts the process. -/
theorem bumpfee_assert_delta_reachable :
    (bumpfee envC9 1 optsC9).1 = .error .assertDeltaFailed ∧
      envC9.incrementalRelayFee = ⟨0⟩ ∧ (envC9.mapWallet 1).map WalletTx.debit = some 100000 :=
  ⟨rfl, rfl, rfl⟩

/-- C1 counterexample: with an explicit totalFee exactly at maxTxFee = 20000,
the maxTxFee check passes, then the 500-satoshi sub-dust change remainder is
absorbed into the fee, so the successful result reports a fee of 20500 that
exceeds maxTxFee. -/
theorem bumpfee_fee_can_exceed_maxTxFee :
    (bumpfee envC1 1 optsC1).1 = .ok ⟨2, 10000, 20500, []⟩ ∧ envC1.maxTxFee < 20500 :=
  ⟨rfl, by decide⟩

/-- C2 counterexample: a transaction that is both confirmed (depth 1) and has
a wallet descendant is reported with the wallet-descendant error, because the
code checks wallet descendants before the unconfirmed check; under the
claim's order the first failing check would be the confirmation check. -/
theorem bumpfee_descendant_check_precedes_confirmation_check :
    (bumpfee envC2 1 optsNone).1 = .error .walletDescendants ∧
      (envC2.mapWallet 1).map WalletTx.depth = some 1 ∧
      BumpError.walletDescendants ≠ BumpError.txMined :=
  ⟨rfl, rfl, by decide⟩

/-- C7 counterexample: a transaction already marked replaced (by txid 9) that
also has a wallet descendant fails with the wallet-descendant error, not with
the invalid-request error naming the replacement. -/
theorem bumpfee_replaced_tx_other_error_first :
    (bumpfee envC7 1 optsNone).1 = .error .walletDescendants ∧
      (envC7.mapWallet 1).map WalletTx.replacedBy = some (some 9) ∧
      BumpError.walletDescendants ≠ BumpError.alreadyBumped 9 :=
  ⟨rfl, rfl, by decide⟩

/-- C4: whenever bumpfee fails, the wallet state is returned unchanged (every
throw of the source occurs before CommitTransaction and mutates only local
copies), and repeating the call on the resulting state with identical inputs
produces the identical outcome, in particular the same error. -/
theorem bumpfee_failure_preserves_state (env : BumpEnv) (h : Nat) (o : BumpOptions)
    (e : BumpError) (he : (bumpfee env h o).1 = .error e) :
    (bumpfee env h o).2 = env ∧
      bumpfee ((bumpfee env h o).2) h o = bumpfee env h o := by
  have hsnd : (bumpfee env h o).2 = env := by
    unfold bumpfee at he ⊢
    rcases hp : bumpfeePrepare env h o with e2 | ⟨w, tx2, oldF, newF⟩
    · rfl
    · rw [hp] at he
      exact absurd he (by simp [bumpfeeCommit])
  exact ⟨hsnd, by rw [hsnd]⟩

/-- C4 witness: at the concrete failing environment the state is unchanged
and the repeated call returns the same error. -/
theorem bumpfee_failure_preserves_state_witness :
    (bumpfee envC2 1 optsNone).1 = .error .walletDescendants ∧
      ((bumpfee envC2 1 optsNone).2 = envC2 ∧
        bumpfee ((bumpfee envC2 1 optsNone).2) 1 optsNone = bumpfee envC2 1 optsNone) :=
  ⟨rfl, bumpfee_failure_preserves_state envC2 1 optsNone .walletDescendants rfl⟩

/-- C8: once the prepare stages (eligibility, fee computation, rebuild,
signing) succeed, the call succeeds unconditionally: a mempool rejection of
the replacement and a MarkReplaced persistence failure are appended to the
errors array of the successful result, which still carries the new txid, the
old fee and the new fee. -/
theorem bumpfee_commit_warnings_in_result (env : BumpEnv) (h : Nat) (o : BumpOptions)
    (w : WalletTx) (tx2 : Tx) (oldF newF : CAmount)
    (hp : bumpfeePrepare env h o = .ok (w, tx2, oldF, newF)) :
    (bumpfee env h o).1 = .ok ⟨env.newTxid tx2, oldF, newF,
      (if env.commitStateInvalid then [BumpWarning.rejected] else [])
        ++ (if env.markReplacedOk then [] else [BumpWarning.markFailed])⟩ := by
  unfold bumpfee
  rw [hp]
  rfl

/-- C8 witness: with the mempool rejecting and MarkReplaced failing, the call
still succeeds and reports both conditions in the errors array. -/
theorem bumpfee_commit_warnings_in_result_witness :
    bumpfeePrepare envC8 1 optsOK = .ok (wtxOK, txB, 10000, 15000) ∧
      (bumpfee envC8 1 optsOK).1 = .ok ⟨envC8.newTxid txB, 10000, 15000,
        (if envC8.commitStateInvalid then [BumpWarning.rejected] else [])
          ++ (if envC8.markReplacedOk then [] else [BumpWarning.markFailed])⟩ :=
  ⟨rfl, bumpfee_commit_warnings_in_result envC8 1 optsOK wtxOK txB 10000 15000 rfl⟩

/-- C7 amended: a transaction already marked replaced can never be bumped
again (bumpfee never succeeds on it), and whenever the checks preceding the
replaced-check pass, the reported error is the invalid-request error naming
the recorded replacement. -/
theorem bumpfee_replaced_never_succeeds (env : BumpEnv) (h : Nat) (o : BumpOptions)
    (wtx : WalletTx) (r0 : Nat)
    (hm : env.mapWallet h = some wtx) (hr : wtx.replacedBy = some r0) :
    exceptIsOk (bumpfee env h o).1 = false ∧
    (env.walletLocked = false → env.hasWalletSpend h = false →
      env.mempoolDescendants h = false → wtx.depth = 0 → SignalsOptInRBF wtx.tx = true →
      (bumpfee env h o).1 = .error (.alreadyBumped r0)) := by
  constructor
  · unfold bumpfee
    rcases hp : bumpfeePrepare env h o with e | x
    · rfl
    · exfalso
      obtain ⟨wtx2, _, hm2, _, _, _, _, hrep, _⟩ := prepare_ok_elim hp
      rw [hm] at hm2
      cases hm2
      rw [hr] at hrep
      cases hrep
  · intro hl hs hmp hd hrbf
    simp [bumpfee, bumpfeePrepare, hl, hm, hs, hmp, hd, hrbf, hr]

/-- C7 witness: at the concrete marked-replaced environment the call never
succeeds, and with all earlier checks passing it reports the already-bumped
error naming txid 9. -/
theorem bumpfee_replaced_never_succeeds_witness :
    envC7b.mapWallet 1 = some { wtxOK with replacedBy := some 9 } ∧
      (exceptIsOk (bumpfee envC7b 1 optsNone).1 = false ∧
        (envC7b.walletLocked = false → envC7b.hasWalletSpend 1 = false →
          envC7b.mempoolDescendants 1 = false → ({ wtxOK with replacedBy := some 9 } : WalletTx).depth = 0 →
          SignalsOptInRBF ({ wtxOK with replacedBy := some 9 } : WalletTx).tx = true →
          (bumpfee envC7b 1 optsNone).1 = .error (.alreadyBumped 9))) :=
  ⟨rfl, bumpfee_replaced_never_succeeds envC7b 1 optsNone
    { wtxOK with replacedBy := some 9 } 9 rfl rfl⟩

/-- C1 amended: on every successful bump the fee checked against maxTxFee is
the fee computed before dust absorption, so the final fee exceeds maxTxFee at
most by the absorbed sub-dust change value (bounded by the change script's
dust threshold); and the increment rule holds as the code enforces it: with a
positive explicit totalFee the final fee is at least the old rate's fee plus
the incremental relay fee on the maximum signed size, and on the estimation
path it is at least the fee at rate oldRate + 1 satoshi/kB + wallet
incremental relay rate. -/
theorem bumpfee_success_fee_bounds (env : BumpEnv) (h : Nat) (o : BumpOptions)
    (r : BumpResult) (wtx : WalletTx)
    (hm : env.mapWallet h = some wtx)
    (hok : (bumpfee env h o).1 = .ok r) :
    (r.fee ≤ env.maxTxFee ∨
      ∃ sc, env.isChange sc = true ∧ (∃ out ∈ wtx.tx.vout, out.scriptPubKey = sc) ∧
        r.fee ≤ env.maxTxFee + env.dustThreshold sc) ∧
    (0 < o.totalFee.getD 0 →
      (CFeeRate.ofFee (wtx.debit - wtx.tx.GetValueOut) (env.virtualSize wtx.tx)).GetFee
          (env.maxSignedSize wtx.tx)
        + env.incrementalRelayFee.GetFee (env.maxSignedSize wtx.tx) ≤ r.fee) ∧
    (¬0 < o.totalFee.getD 0 → 0 < env.maxSignedSize wtx.tx →
      CFeeRate.GetFee ⟨(CFeeRate.ofFee (wtx.debit - wtx.tx.GetValueOut)
          (env.virtualSize wtx.tx)).GetFeePerK
        + 1 + (walletIncrementalRelayFee env).GetFeePerK⟩ (env.maxSignedSize wtx.tx) ≤ r.fee) := by
  unfold bumpfee at hok
  rcases hp : bumpfeePrepare env h o with e | ⟨w, tx2, oldF, newF⟩
  · rw [hp] at hok
    exact absurd hok (by simp)
  · rw [hp] at hok
    dsimp only [bumpfeeCommit] at hok
    simp only [Except.ok.injEq] at hok
    have hfee : r.fee = newF := by rw [← hok]
    obtain ⟨wtx2, _, hm2, _, _, _, _, _, _, nOutput, hfc, hfp⟩ := prepare_ok_elim hp
    rw [hm] at hm2
    cases hm2
    obtain ⟨specified, target, tot, repl, nNewFee, rate, tx1, absorbed,
      hv, hcf, hdelta, hrb, htx2, hsign, hw, hoF, hnF⟩ := feePart_ok_elim hfp
    obtain ⟨htot, _⟩ := validateOptions_ok_elim hv
    obtain ⟨hmax, hbig, hest⟩ := computeNewFee_ok_bounds hcf
    obtain ⟨_, _, habs0, hcase⟩ := rebuildTx_ok_elim hrb
    rw [hfee, hnF]
    refine ⟨?_, ?_, ?_⟩
    · rcases hcase with ⟨hd, _, habs⟩ | ⟨_, _, habs⟩
      · right
        obtain ⟨k, hklen, hjk, hkc, _⟩ := findChange_noneP wtx.tx.vout 0 nOutput hfc
        have hk : k = nOutput := by omega
        subst hk
        refine ⟨(wtx.tx.vout.getD k txOutDefault).scriptPubKey, hkc,
          ⟨wtx.tx.vout.getD k txOutDefault, getD_mem txOutDefault hklen, rfl⟩, ?_⟩
        have habsle : absorbed ≤ env.dustThreshold
            (wtx.tx.vout.getD k txOutDefault).scriptPubKey := by rw [habs]; exact hd
        exact add_le_add hmax habsle
      · left
        rw [habs, add_zero]
        exact hmax
    · intro hpos
      rw [htot] at hbig
      exact le_trans (hbig hpos) (le_add_of_nonneg_right habs0)
    · intro hneg hsz
      rw [htot] at hest
      exact le_trans (hest hneg hsz) (le_add_of_nonneg_right habs0)

/-- C1 amended witness: at the benign environment (totalFee 15000, old fee
10000, sizes 1000, incremental relay fee 1000, maxTxFee 100000) the success
satisfies all three bounds. -/
theorem bumpfee_success_fee_bounds_witness :
    envOK.mapWallet 1 = some wtxOK ∧ (bumpfee envOK 1 optsOK).1 = .ok ⟨2, 10000, 15000, []⟩ ∧
      (((⟨2, 10000, 15000, []⟩ : BumpResult).fee ≤ envOK.maxTxFee ∨
        ∃ sc, envOK.isChange sc = true ∧ (∃ out ∈ wtxOK.tx.vout, out.scriptPubKey = sc) ∧
          (⟨2, 10000, 15000, []⟩ : BumpResult).fee ≤ envOK.maxTxFee + envOK.dustThreshold sc) ∧
      (0 < optsOK.totalFee.getD 0 →
        (CFeeRate.ofFee (wtxOK.debit - wtxOK.tx.GetValueOut) (envOK.virtualSize wtxOK.tx)).GetFee
            (envOK.maxSignedSize wtxOK.tx)
          + envOK.incrementalRelayFee.GetFee (envOK.maxSignedSize wtxOK.tx) ≤
          (⟨2, 10000, 15000, []⟩ : BumpResult).fee) ∧
      (¬0 < optsOK.totalFee.getD 0 → 0 < envOK.maxSignedSize wtxOK.tx →
        CFeeRate.GetFee ⟨(CFeeRate.ofFee (wtxOK.debit - wtxOK.tx.GetValueOut)
            (envOK.virtualSize wtxOK.tx)).GetFeePerK
          + 1 + (walletIncrementalRelayFee envOK).GetFeePerK⟩ (envOK.maxSignedSize wtxOK.tx) ≤
          (⟨2, 10000, 15000, []⟩ : BumpResult).fee)) :=
  ⟨rfl, rfl, bumpfee_success_fee_bounds envOK 1 optsOK ⟨2, 10000, 15000, []⟩ wtxOK rfl rfl⟩

lemma normalize_vout (t : Tx) : (normalizeSequences t).vout = t.vout := rfl

/-- C3: in the rebuild step with delta = newFee - oldFee: a change output
smaller than delta fails with the change-too-small error; otherwise delta is
subtracted, and a result at or below the dust threshold removes the output
entirely, adding its remaining value to the fee; no inputs are ever touched.
Consequently every output of the signed replacement whose script the wallet
classifies as change has value strictly above its dust threshold. -/
theorem bumpfee_rebuild_change_handling :
    (∀ (tx : Tx) (i : Nat) (delta : CAmount) (dust : Nat → CAmount),
      ((tx.vout.getD i txOutDefault).nValue < delta →
        rebuildTx tx i delta dust = .error .changeTooSmall) ∧
      (¬(tx.vout.getD i txOutDefault).nValue < delta →
        ∃ tx1 absorbed, rebuildTx tx i delta dust = .ok (tx1, absorbed) ∧
          tx1.vin = tx.vin ∧
          ((tx.vout.getD i txOutDefault).nValue - delta ≤
              dust (tx.vout.getD i txOutDefault).scriptPubKey ∧
            tx1.vout = (tx.vout.set i ⟨(tx.vout.getD i txOutDefault).nValue - delta,
              (tx.vout.getD i txOutDefault).scriptPubKey⟩).eraseIdx i ∧
            absorbed = (tx.vout.getD i txOutDefault).nValue - delta ∨
            dust (tx.vout.getD i txOutDefault).scriptPubKey <
              (tx.vout.getD i txOutDefault).nValue - delta ∧
            tx1.vout = tx.vout.set i ⟨(tx.vout.getD i txOutDefault).nValue - delta,
              (tx.vout.getD i txOutDefault).scriptPubKey⟩ ∧
            absorbed = 0))) ∧
    (∀ (env : BumpEnv) (h : Nat) (o : BumpOptions) (w : WalletTx) (tx2 : Tx)
        (oldF newF : CAmount),
      bumpfeePrepare env h o = .ok (w, tx2, oldF, newF) →
      tx2.vin.length = w.tx.vin.length ∧
      ∀ out ∈ tx2.vout, env.isChange out.scriptPubKey = true →
        env.dustThreshold out.scriptPubKey < out.nValue) := by
  constructor
  · intro tx i delta dust
    constructor
    · intro hlow
      unfold rebuildTx
      dsimp only []
      rw [if_pos hlow]
    · intro hlow
      by_cases hdust : (tx.vout.getD i txOutDefault).nValue - delta ≤
          dust (tx.vout.getD i txOutDefault).scriptPubKey
      · refine ⟨{ tx with vout := (tx.vout.set i ⟨(tx.vout.getD i txOutDefault).nValue - delta,
            (tx.vout.getD i txOutDefault).scriptPubKey⟩).eraseIdx i },
          (tx.vout.getD i txOutDefault).nValue - delta, ?_, rfl, Or.inl ⟨hdust, rfl, rfl⟩⟩
        unfold rebuildTx
        dsimp only []
        rw [if_neg hlow, if_pos hdust]
      · refine ⟨{ tx with vout := tx.vout.set i ⟨(tx.vout.getD i txOutDefault).nValue - delta,
            (tx.vout.getD i txOutDefault).scriptPubKey⟩ }, 0,
          ?_, rfl, Or.inr ⟨lt_of_not_le hdust, rfl, rfl⟩⟩
        unfold rebuildTx
        dsimp only []
        rw [if_neg hlow, if_neg hdust]
  · intro env h o w tx2 oldF newF hp
    obtain ⟨wtxP, _, _, _, _, _, _, _, _, nOutput, hfc, hfp⟩ := prepare_ok_elim hp
    obtain ⟨specified, target, tot, repl, nNewFee, rate, tx1, absorbed,
      hv, hcf, hdelta, hrb, htx2, hsign, hw, hoF, hnF⟩ := feePart_ok_elim hfp
    subst hw
    obtain ⟨hlow, hvin, habs0, hcase⟩ := rebuildTx_ok_elim hrb
    have hvout2 : tx2.vout = tx1.vout := by
      rw [htx2]; cases repl
      · exact normalize_vout tx1
      · rfl
    have hvinlen : tx2.vin.length = w.tx.vin.length := by
      rw [htx2]; cases repl
      · show (normalizeSequences tx1).vin.length = _
        unfold normalizeSequences
        rw [List.length_map, hvin]
      · show tx1.vin.length = _
        rw [hvin]
    refine ⟨hvinlen, ?_⟩
    intro out hout hch
    rw [hvout2] at hout
    obtain ⟨k, hklen, hjk, hkc, hall⟩ := findChange_noneP w.tx.vout 0 nOutput hfc
    have hk : k = nOutput := by omega
    subst hk
    rcases hcase with ⟨hd, hvo, habs⟩ | ⟨hd, hvo, habs⟩
    · rw [hvo] at hout
      obtain ⟨j, hj, hne, hje⟩ := mem_eraseIdx_getD txOutDefault hout
      rw [List.length_set] at hj
      rw [getD_set_ne _ _ _ _ _ hne] at hje
      have hfalse := hall j hj hne
      rw [hje, hch] at hfalse
      exact absurd hfalse (by simp)
    · rw [hvo] at hout
      obtain ⟨j, hj, hje⟩ := mem_getD txOutDefault hout
      rw [List.length_set] at hj
      by_cases hji : j = k
      · subst hji
        rw [getD_set_self _ _ _ _ hj] at hje
        rw [← hje]
        exact hd
      · rw [getD_set_ne _ _ _ _ _ hji] at hje
        have hfalse := hall j hj hji
        rw [hje, hch] at hfalse
        exact absurd hfalse (by simp)

/-- C3 witness: the rebuild of the benign transaction (change 50000, delta
5000, dust 600) keeps the shrunken change output, and the committed
replacement's change output (45000) is above its dust threshold. -/
theorem bumpfee_rebuild_change_handling_witness :
    (¬(wtxOK.tx.vout.getD 0 txOutDefault).nValue < 5000 ∧
      ∃ tx1 absorbed, rebuildTx wtxOK.tx 0 5000 envOK.dustThreshold = .ok (tx1, absorbed) ∧
        tx1.vin = wtxOK.tx.vin ∧
        ((wtxOK.tx.vout.getD 0 txOutDefault).nValue - 5000 ≤
            envOK.dustThreshold (wtxOK.tx.vout.getD 0 txOutDefault).scriptPubKey ∧
          tx1.vout = (wtxOK.tx.vout.set 0 ⟨(wtxOK.tx.vout.getD 0 txOutDefault).nValue - 5000,
            (wtxOK.tx.vout.getD 0 txOutDefault).scriptPubKey⟩).eraseIdx 0 ∧
          absorbed = (wtxOK.tx.vout.getD 0 txOutDefault).nValue - 5000 ∨
          envOK.dustThreshold (wtxOK.tx.vout.getD 0 txOutDefault).scriptPubKey <
            (wtxOK.tx.vout.getD 0 txOutDefault).nValue - 5000 ∧
          tx1.vout = wtxOK.tx.vout.set 0 ⟨(wtxOK.tx.vout.getD 0 txOutDefault).nValue - 5000,
            (wtxOK.tx.vout.getD 0 txOutDefault).scriptPubKey⟩ ∧
          absorbed = 0)) ∧
    (bumpfeePrepare envOK 1 optsOK = .ok (wtxOK, txB, 10000, 15000) ∧
      (txB.vin.length = wtxOK.tx.vin.length ∧
        ∀ out ∈ txB.vout, envOK.isChange out.scriptPubKey = true →
          envOK.dustThreshold out.scriptPubKey < out.nValue)) :=
  ⟨⟨by decide, (bumpfee_rebuild_change_handling.1 wtxOK.tx 0 5000 envOK.dustThreshold).2
      (by decide)⟩,
    ⟨rfl, bumpfee_rebuild_change_handling.2 envOK 1 optsOK wtxOK txB 10000 15000 rfl⟩⟩

lemma processRecipients_dup_aux {isValid : Nat → Bool} {subtract : List Nat} :
    ∀ (entries : List (Nat × CAmount)) (seen : List Nat) (acc : List Recipient)
      (total : CAmount), seen.Nodup →
      (∀ p ∈ entries, isValid p.1 = true) → (∀ p ∈ entries, 0 < p.2) →
      ¬(seen ++ entries.map Prod.fst).Nodup →
      ∃ a, processRecipients isValid subtract entries seen acc total =
        .error (.duplicatedAddress a) := by
  intro entries
  induction entries with
  | nil =>
    intro seen acc total hseen _ _ hnd
    exact absurd (by simpa using hseen) hnd
  | cons p t ih =>
    intro seen acc total hseen hval hpos hnd
    obtain ⟨a, v⟩ := p
    have hva : isValid a = true := hval (a, v) (by simp)
    have hvv : 0 < v := hpos (a, v) (by simp)
    unfold processRecipients
    rw [hva]
    by_cases hmem : a ∈ seen
    · exact ⟨a, by simp [hmem]⟩
    · simp only [Bool.not_true, Bool.false_eq_true, if_false, hmem, if_neg (not_le.mpr hvv)]
      refine ih (a :: seen) _ _ (List.nodup_cons.mpr ⟨hmem, hseen⟩)
        (fun q hq => hval q (by simp [hq])) (fun q hq => hpos q (by simp [hq])) ?_
      intro hcontra
      exact hnd (List.perm_middle.symm.nodup_iff.mp (by simpa using hcontra))

lemma processRecipients_nonpos_aux {isValid : Nat → Bool} {subtract : List Nat} :
    ∀ (entries : List (Nat × CAmount)) (seen : List Nat) (acc : List Recipient)
      (total : CAmount),
      (∀ p ∈ entries, isValid p.1 = true) →
      (seen ++ entries.map Prod.fst).Nodup →
      (∃ p ∈ entries, p.2 ≤ 0) →
      processRecipients isValid subtract entries seen acc total = .error .invalidAmount := by
  intro entries
  induction entries with
  | nil =>
    intro seen acc total _ _ hex
    simp at hex
  | cons p t ih =>
    intro seen acc total hval hnd hex
    obtain ⟨a, v⟩ := p
    have hva : isValid a = true := hval (a, v) (by simp)
    have hnd2 : ((a :: seen) ++ t.map Prod.fst).Nodup := by
      have := List.perm_middle.nodup_iff.mp (by simpa using hnd)
      simpa using this
    have hmem : ¬a ∈ seen := by
      have := List.perm_middle.nodup_iff.mp (by simpa using hnd)
      rcases List.nodup_cons.mp this with ⟨hna, _⟩
      intro hc
      exact hna (List.mem_append.mpr (Or.inl hc))
    unfold processRecipients
    rw [hva]
    simp only [Bool.not_true, Bool.false_eq_true, if_false, hmem]
    by_cases hv0 : v ≤ 0
    · simp [hv0]
    · simp only [hv0, if_false, if_neg hmem]
      rcases hex with ⟨q, hq, hq0⟩
      rcases List.mem_cons.mp hq with hq1 | hq2
      · rw [hq1] at hq0
        exact absurd hq0 hv0
      · exact ih (a :: seen) _ _ (fun r hr => hval r (by simp [hr])) hnd2 ⟨q, hq2, hq0⟩

lemma sendmany_to_body {env : SendEnv} {entries : List (Nat × CAmount)}
    {pfrom pchange : Option Nat} {minDepth : Int} {subtract : List Nat}
    (hb : (env.broadcast && !env.connman) = false)
    (hf : ∀ a, pfrom = some a → env.isValidAddress a = true)
    (hc : ∀ c, pchange = some c → env.isValidAddress c = true) :
    sendmany env entries pfrom pchange minDepth subtract =
      sendmanyBody env entries pfrom minDepth subtract := by
  unfold sendmany
  rw [hb]
  simp only [Bool.false_eq_true, if_false]
  rcases hpf : pfrom with _ | a
  · rcases hpc : pchange with _ | c
    · rfl
    · dsimp only []
      rw [hc c hpc]
      rfl
  · dsimp only []
    rw [hf a hpf]
    rcases hpc : pchange with _ | c
    · rfl
    · dsimp only []
      rw [hc c hpc]
      rfl

/-- C5: SendMoneyNew rejects a non-positive amount with the invalid-amount
error before touching anything; sendmany surfaces any recipient-loop error
(in particular duplicated-address) with no collaborator call and no state
change; the recipient loop reports a duplicated address whenever the list of
valid, positive-amount recipients repeats a destination, and a non-positive
amount whenever one occurs in a duplicate-free valid list. -/
theorem send_amount_and_duplicate_validation :
    (∀ (env : SendEnv) (a : Nat) (v : CAmount) (s : Bool) (p : Option Nat),
      v ≤ 0 → SendMoneyNew env a v s p = (.error .invalidAmount, env, [])) ∧
    (∀ (env : SendEnv) (entries : List (Nat × CAmount)) (pfrom pchange : Option Nat)
        (minDepth : Int) (subtract : List Nat) (e : SendError),
      (env.broadcast && !env.connman) = false →
      (∀ a, pfrom = some a → env.isValidAddress a = true) →
      (∀ c, pchange = some c → env.isValidAddress c = true) →
      processRecipients env.isValidAddress subtract entries [] [] 0 = .error e →
      sendmany env entries pfrom pchange minDepth subtract = (.error e, env, [])) ∧
    (∀ (isValid : Nat → Bool) (subtract : List Nat) (entries : List (Nat × CAmount)),
      (∀ p ∈ entries, isValid p.1 = true) → (∀ p ∈ entries, 0 < p.2) →
      ¬(entries.map Prod.fst).Nodup →
      ∃ a, processRecipients isValid subtract entries [] [] 0 =
        .error (.duplicatedAddress a)) ∧
    (∀ (isValid : Nat → Bool) (subtract : List Nat) (entries : List (Nat × CAmount)),
      (∀ p ∈ entries, isValid p.1 = true) → (entries.map Prod.fst).Nodup →
      (∃ p ∈ entries, p.2 ≤ 0) →
      processRecipients isValid subtract entries [] [] 0 = .error .invalidAmount) := by
  refine ⟨?_, ?_, ?_, ?_⟩
  · intro env a v s p hv
    unfold SendMoneyNew
    rw [if_pos hv]
  · intro env entries pfrom pchange minDepth subtract e hb hf hc he
    rw [sendmany_to_body hb hf hc]
    unfold sendmanyBody
    rw [he]
  · intro isValid subtract entries hval hpos hnd
    exact processRecipients_dup_aux entries [] [] 0 (by simp) hval hpos (by simpa using hnd)
  · intro isValid subtract entries hval hnd hex
    exact processRecipients_nonpos_aux entries [] [] 0 hval (by simpa using hnd) hex

/-- C5 witness: amount 0 is rejected by SendMoneyNew; the duplicate list
[(5,100),(5,200)] makes sendmany fail with duplicated-address 5 and an empty
collaborator trace; the loop-level characterizations hold on it. -/
theorem send_amount_and_duplicate_validation_witness :
    SendMoneyNew sendEnvOK 3 0 false none = (.error .invalidAmount, sendEnvOK, []) ∧
      sendmany sendEnvOK [(5, 100), (5, 200)] none none 1 [] =
        (.error (.duplicatedAddress 5), sendEnvOK, []) ∧
      (∃ a, processRecipients sendEnvOK.isValidAddress [] [(5, 100), (5, 200)] [] [] 0 =
        .error (.duplicatedAddress a)) ∧
      processRecipients sendEnvOK.isValidAddress [] [(5, 100), (6, 0)] [] [] 0 =
        .error .invalidAmount :=
  ⟨send_amount_and_duplicate_validation.1 sendEnvOK 3 0 false none (by decide),
    send_amount_and_duplicate_validation.2.1 sendEnvOK [(5, 100), (5, 200)] none none 1 []
      (.duplicatedAddress 5) rfl (fun a ha => by cases ha) (fun c hc => by cases hc) rfl,
    send_amount_and_duplicate_validation.2.2.1 sendEnvOK.isValidAddress [] [(5, 100), (5, 200)]
      (by decide) (by decide) (by decide),
    send_amount_and_duplicate_validation.2.2.2 sendEnvOK.isValidAddress [] [(5, 100), (6, 0)]
      (by decide) (by decide) ⟨(6, 0), by decide, by decide⟩⟩

/-- C6: on every payment path the source-balance check precedes construction
of the reserve key: when the eligible balance (of the explicit source address
or of SelectAddress's choice) cannot cover the target, the call fails with
InsufficientFunds, with an empty collaborator trace (no reserve key, no
CreateTransaction, no commit) and the wallet state returned unchanged. -/
theorem insufficient_funds_before_reserve_key :
    (∀ (env : SendEnv) (addr : Nat) (v : CAmount) (s : Bool) (a : Nat),
      ¬v ≤ 0 → env.addressBalance a < v →
      SendMoneyNew env addr v s (some a) = (.error .insufficientFunds, env, [])) ∧
    (∀ (env : SendEnv) (addr : Nat) (v : CAmount) (s : Bool),
      ¬v ≤ 0 → env.selectAddress v 1 = none →
      SendMoneyNew env addr v s none = (.error .insufficientFunds, env, [])) ∧
    (∀ (env : SendEnv) (entries : List (Nat × CAmount)) (a : Nat) (pchange : Option Nat)
        (minDepth : Int) (subtract : List Nat) (vecSend : List Recipient) (total : CAmount),
      (env.broadcast && !env.connman) = false →
      env.isValidAddress a = true →
      (∀ c, pchange = some c → env.isValidAddress c = true) →
      processRecipients env.isValidAddress subtract entries [] [] 0 = .ok (vecSend, total) →
      env.walletLocked = false →
      env.addressBalance a < total →
      sendmany env entries (some a) pchange minDepth subtract =
        (.error .insufficientFunds, env, [])) ∧
    (∀ (env : SendEnv) (entries : List (Nat × CAmount)) (pchange : Option Nat)
        (minDepth : Int) (subtract : List Nat) (vecSend : List Recipient) (total : CAmount),
      (env.broadcast && !env.connman) = false →
      (∀ c, pchange = some c → env.isValidAddress c = true) →
      processRecipients env.isValidAddress subtract entries [] [] 0 = .ok (vecSend, total) →
      env.walletLocked = false →
      env.selectAddress total minDepth = none →
      sendmany env entries none pchange minDepth subtract =
        (.error .insufficientFunds, env, [])) := by
  refine ⟨?_, ?_, ?_, ?_⟩
  · intro env addr v s a hv hbal
    unfold SendMoneyNew
    rw [if_neg hv]
    dsimp only []
    rw [if_pos hbal]
  · intro env addr v s hv hsel
    unfold SendMoneyNew
    rw [if_neg hv]
    dsimp only []
    rw [hsel]
  · intro env entries a pchange minDepth subtract vecSend total hb hva hc hpr hl hbal
    rw [sendmany_to_body hb (fun x hx => by cases hx; exact hva) hc]
    unfold sendmanyBody
    rw [hpr, hl]
    simp only [Bool.false_eq_true, if_false]
    dsimp only []
    rw [decide_eq_true hbal]
    rfl
  · intro env entries pchange minDepth subtract vecSend total hb hc hpr hl hsel
    rw [sendmany_to_body hb (fun x hx => by cases hx) hc]
    unfold sendmanyBody
    rw [hpr, hl]
    simp only [Bool.false_eq_true, if_false]
    dsimp only []
    rw [hsel]
    rfl

/-- C6 witness: SendMoneyNew from address 7 (balance 1000) for 2000 fails
with InsufficientFunds, an empty trace and untouched state; so does sendmany
with an explicit from-address whose balance cannot cover the total. -/
theorem insufficient_funds_before_reserve_key_witness :
    SendMoneyNew sendEnvOK 3 2000 false (some 7) = (.error .insufficientFunds, sendEnvOK, []) ∧
      SendMoneyNew sendEnvOK 3 2000 false none = (.error .insufficientFunds, sendEnvOK, []) ∧
      sendmany sendEnvOK [(5, 2000)] (some 7) none 1 [] =
        (.error .insufficientFunds, sendEnvOK, []) ∧
      sendmany sendEnvOK [(5, 2000)] none none 1 [] =
        (.error .insufficientFunds, sendEnvOK, []) :=
  ⟨insufficient_funds_before_reserve_key.1 sendEnvOK 3 2000 false 7 (by decide) (by decide),
    insufficient_funds_before_reserve_key.2.1 sendEnvOK 3 2000 false (by decide) rfl,
    insufficient_funds_before_reserve_key.2.2.1 sendEnvOK [(5, 2000)] 7 none 1 []
      [⟨5, 2000, false⟩] 2000 rfl rfl (fun c hc => by cases hc) rfl rfl (by decide),
    insufficient_funds_before_reserve_key.2.2.2 sendEnvOK [(5, 2000)] none 1 []
      [⟨5, 2000, false⟩] 2000 rfl (fun c hc => by cases hc) rfl rfl rfl⟩

/-- C10: SendWithOpreturn fails with InsufficientFunds (no collaborator call,
state unchanged) whenever the fixed fee exceeds the sending address's
balance; otherwise, once the peer and payload checks pass, the transaction is
built from exactly one spendable recipient: the sending address itself, for
its entire current balance, with the subtract-fee flag false. -/
theorem sendWithOpreturn_recipient_and_funds :
    (∀ (env : SendEnv) (addr : Nat) (fee : CAmount) (nAppID : Nat) (d : List Nat),
      env.addressBalance addr < fee →
      SendWithOpreturn env addr fee nAppID d = (.error .insufficientFunds, env, [])) ∧
    (∀ (env : SendEnv) (addr : Nat) (fee : CAmount) (nAppID : Nat) (d : List Nat),
      ¬env.addressBalance addr < fee →
      (env.broadcast && !env.connman) = false →
      env.createOpReturn nAppID d ≠ [] →
      (SendWithOpreturn env addr fee nAppID d).2.2.take 2 =
        [.reserveKey, .createTx [⟨GetScriptForDestination addr, env.addressBalance addr, false⟩]]) := by
  constructor
  · intro env addr fee nAppID d hbal
    unfold SendWithOpreturn
    dsimp only []
    rw [if_pos hbal]
  · intro env addr fee nAppID d hbal hb hop
    unfold SendWithOpreturn
    dsimp only []
    rw [if_neg hbal, hb]
    simp only [Bool.false_eq_true, if_false]
    rw [if_neg hop]
    unfold createAndCommit
    rcases hco : env.createOk [⟨GetScriptForDestination addr, env.addressBalance addr, false⟩]
    · rfl
    · rcases hcm : env.commitOk
      · rfl
      · rfl

/-- C10 witness: a payload send from address 7 (balance 1000, fee 500)
reaches the builder with the single recipient (7, 1000, subtract=false);
a fee of 2000 fails with InsufficientFunds and no trace. -/
theorem sendWithOpreturn_recipient_and_funds_witness :
    SendWithOpreturn sendEnvOK 7 2000 1 [1, 2] = (.error .insufficientFunds, sendEnvOK, []) ∧
      (SendWithOpreturn sendEnvOK 7 500 1 [1, 2]).2.2.take 2 =
        [.reserveKey, .createTx [⟨GetScriptForDestination 7, sendEnvOK.addressBalance 7, false⟩]] :=
  ⟨sendWithOpreturn_recipient_and_funds.1 sendEnvOK 7 2000 1 [1, 2] (by decide),
    sendWithOpreturn_recipient_and_funds.2 sendEnvOK 7 500 1 [1, 2] (by decide) rfl
      (by decide)⟩

lemma validateOptions_err_not_elig {env : BumpEnv} {m : Int} {o : BumpOptions} {e : BumpError}
    (hv : validateOptions env m o = .error e) : e.isEligibility = false := by
  unfold validateOptions at hv
  rcases hct : o.confTarget with _ | ct <;> rcases htf : o.totalFee with _ | tf <;>
      rw [hct, htf] at hv <;> simp only [] at hv
  · exact absurd hv (by simp)
  · split at hv
    · simp only [Except.error.injEq] at hv
      rw [← hv]
      rfl
    · exact absurd hv (by simp)
  · split at hv
    · simp only [Except.error.injEq] at hv
      rw [← hv]
      rfl
    · exact absurd hv (by simp)
  · simp only [Except.error.injEq] at hv
    rw [← hv]
    rfl

lemma checkCaps_err_not_elig {env : BumpEnv} {fee : CAmount} {rate : CFeeRate} {e : BumpError}
    (hc : checkCaps env fee rate = .error e) : e.isEligibility = false := by
  unfold checkCaps at hc
  split at hc
  · simp only [Except.error.injEq] at hc
    rw [← hc]
    rfl
  · split at hc
    · simp only [Except.error.injEq] at hc
      rw [← hc]
      rfl
    · exact absurd hc (by simp)

lemma computeNewFee_err_not_elig {env : BumpEnv} {specified : Bool} {target : Int}
    {tot : CAmount} {oldRate : CFeeRate} {maxSz : Int} {e : BumpError}
    (hc : computeNewFee env specified target tot oldRate maxSz = .error e) :
    e.isEligibility = false := by
  unfold computeNewFee at hc
  split at hc
  · dsimp only [] at hc
    split at hc
    · simp only [Except.error.injEq] at hc
      rw [← hc]
      rfl
    · exact checkCaps_err_not_elig hc
  · dsimp only [] at hc
    generalize (if specified = true then env.minimumFeeTarget maxSz target
      else env.minimumFeeWallet maxSz target) = F at hc
    split at hc
    · exact checkCaps_err_not_elig hc
    · exact checkCaps_err_not_elig hc

lemma rebuildTx_err_not_elig {tx : Tx} {i : Nat} {delta : CAmount} {dust : Nat → CAmount}
    {e : BumpError} (hr : rebuildTx tx i delta dust = .error e) : e.isEligibility = false := by
  unfold rebuildTx at hr
  dsimp only [] at hr
  split at hr
  · simp only [Except.error.injEq] at hr
    rw [← hr]
    rfl
  · split at hr
    · exact absurd hr (by simp)
    · exact absurd hr (by simp)

lemma feePart_err_not_elig {env : BumpEnv} {o : BumpOptions} {wtx : WalletTx}
    {nOutput : Nat} {e : BumpError}
    (hp : bumpfeeFeePart env o wtx nOutput = .error e) : e.isEligibility = false := by
  unfold bumpfeeFeePart at hp
  dsimp only [] at hp
  rcases hv : validateOptions env (env.maxSignedSize wtx.tx) o with ev | ⟨specified, target, tot, repl⟩
  · rw [hv] at hp
    dsimp only [] at hp
    simp only [Except.error.injEq] at hp
    rw [← hp]
    exact validateOptions_err_not_elig hv
  · rw [hv] at hp
    dsimp only [] at hp
    rcases hcf : computeNewFee env specified target tot
        (CFeeRate.ofFee (wtx.debit - wtx.tx.GetValueOut) (env.virtualSize wtx.tx))
        (env.maxSignedSize wtx.tx) with ec | ⟨nNewFee, rate⟩
    · rw [hcf] at hp
      dsimp only [] at hp
      simp only [Except.error.injEq] at hp
      rw [← hp]
      exact computeNewFee_err_not_elig hcf
    · rw [hcf] at hp
      dsimp only [] at hp
      split at hp
      · simp only [Except.error.injEq] at hp
        rw [← hp]
        rfl
      · rcases hrb : rebuildTx wtx.tx nOutput (nNewFee - (wtx.debit - wtx.tx.GetValueOut))
            env.dustThreshold with er | ⟨tx1, absorbed⟩
        · rw [hrb] at hp
          dsimp only [] at hp
          simp only [Except.error.injEq] at hp
          rw [← hp]
          exact rebuildTx_err_not_elig hrb
        · rw [hrb] at hp
          dsimp only [] at hp
          generalize (if repl = true then tx1 else normalizeSequences tx1) = tx3 at hp
          split at hp
          · exact absurd hp (by simp)
          · simp only [Except.error.injEq] at hp
            rw [← hp]
            rfl

lemma countChange_eq_one_of_ok {isC : Nat → Bool} {outs : List TxOut} {i j : Nat}
    (hfc : findChange isC outs i none = .ok j) : countChange isC outs = 1 := by
  rcases cnt : countChange isC outs with _ | n
  · rw [findChange_none_zero outs i cnt] at hfc
    exact absurd hfc (by simp)
  · rcases n with _ | n2
    · rfl
    · rw [findChange_none_two outs i (by omega)] at hfc
      exact absurd hfc (by simp)

/-- The eligibility checks in the source's order (rpcwallet.cpp:2807-2850),
as condition/error pairs: wallet descendants, mempool descendants, confirmed,
no BIP-125 signal, already replaced, foreign inputs, multiple change
outputs, no change output. -/
def eligChecklist (env : BumpEnv) (h : Nat) (wtx : WalletTx) : List (Bool × BumpError) :=
  [(env.hasWalletSpend h, .walletDescendants),
   (env.mempoolDescendants h, .mempoolDescendants),
   (decide (wtx.depth ≠ 0), .txMined),
   (!SignalsOptInRBF wtx.tx, .notReplaceable),
   (wtx.replacedBy.isSome, .alreadyBumped (wtx.replacedBy.getD 0)),
   (!env.isAllFromMe h, .foreignInputs),
   (decide (2 ≤ countChange env.isChange wtx.tx.vout), .multipleChangeOutputs),
   (decide (countChange env.isChange wtx.tx.vout = 0), .noChangeOutput)]

/-- First failing check of a checklist: the spec-side reading of
"checked in order, first failure wins". -/
def firstFail : List (Bool × BumpError) → Option BumpError
  | [] => none
  | (b, e) :: t => if b then some e else firstFail t

lemma bumpfee_fst_error_iff (env : BumpEnv) (h : Nat) (o : BumpOptions) (e : BumpError) :
    (bumpfee env h o).1 = .error e ↔ bumpfeePrepare env h o = .error e := by
  unfold bumpfee
  rcases hp : bumpfeePrepare env h o with e2 | ⟨w, tx2, oF, nF⟩
  · simp
  · dsimp only [bumpfeeCommit]
    simp

/-- C2 amended: with the wallet unlocked and the transaction found, the
eligibility error reported by bumpfee is exactly the first failing check of
the source-ordered checklist: wallet descendants, then mempool descendants,
then confirmation, then the BIP-125 signal, then the already-replaced mark,
then wallet ownership of all inputs, then the exactly-one-change-output
requirement (the claim's order, which puts the confirmation check first, is
refuted by the counterexample). -/
theorem bumpfee_eligibility_order (env : BumpEnv) (h : Nat) (o : BumpOptions) (wtx : WalletTx)
    (hl : env.walletLocked = false) (hm : env.mapWallet h = some wtx) :
    ∀ e, BumpError.isEligibility e = true →
      ((bumpfee env h o).1 = .error e ↔ firstFail (eligChecklist env h wtx) = some e) := by
  intro e he
  rw [bumpfee_fst_error_iff]
  unfold bumpfeePrepare
  rw [hm]
  simp only [hl, Bool.false_eq_true, if_false]
  rcases hs : env.hasWalletSpend h with _ | _
  · rcases hmp : env.mempoolDescendants h with _ | _
    · by_cases hd : wtx.depth = 0
      · rcases hrbf : SignalsOptInRBF wtx.tx with _ | _
        · simp [eligChecklist, firstFail, hs, hmp, hd, hrbf]
        · rcases hrep : wtx.replacedBy with _ | r
          · rcases hfm : env.isAllFromMe h with _ | _
            · simp [eligChecklist, firstFail, hs, hmp, hd, hrbf, hrep, hfm]
            · rcases cnt : countChange env.isChange wtx.tx.vout with _ | n
              · rw [findChange_none_zero wtx.tx.vout 0 cnt]
                simp [eligChecklist, firstFail, hs, hmp, hd, hrbf, hrep, hfm, cnt]
              · rcases n with _ | n2
                · obtain ⟨j, hj⟩ := findChange_none_one wtx.tx.vout 0 (by simpa using cnt)
                  rw [hj]
                  simp [eligChecklist, firstFail, hs, hmp, hd, hrbf, hrep, hfm, cnt]
                  intro hfe
                  have h1 := feePart_err_not_elig hfe
                  rw [h1] at he
                  exact absurd he (by simp)
                · rw [findChange_none_two wtx.tx.vout 0 (by omega)]
                  simp [eligChecklist, firstFail, hs, hmp, hd, hrbf, hrep, hfm, cnt]
          · simp [eligChecklist, firstFail, hs, hmp, hd, hrbf, hrep]
      · simp [eligChecklist, firstFail, hs, hmp, hd]
    · simp [eligChecklist, firstFail, hs, hmp]
  · simp [eligChecklist, firstFail, hs]

/-- C2 amended witness: at the concrete environment (confirmed transaction
with a wallet descendant) the first-failure characterization holds. -/
theorem bumpfee_eligibility_order_witness :
    envC2.walletLocked = false ∧ envC2.mapWallet 1 = some { wtxOK with depth := 1 } ∧
      ∀ e, BumpError.isEligibility e = true →
        ((bumpfee envC2 1 optsNone).1 = .error e ↔
          firstFail (eligChecklist envC2 1 { wtxOK with depth := 1 }) = some e) :=
  ⟨rfl, rfl, bumpfee_eligibility_order envC2 1 optsNone { wtxOK with depth := 1 } rfl rfl⟩
